import Mathlib

/-!
# terraform-test-boilerplate: helper.go and the scenarios of example_test.go

A shallow embedding of `src/helper.go` (provider file, plan parser) and of the
three scenarios of `src/example_test.go` (Dry, Unit, Integration), with the
operating system, the Go runtime and the external tool made explicit:

* Go slices keep the difference between the nil slice and an empty one;
* the file system maps a path to a file with its mode and content; whether
  the system refuses to open a path or to remove an entry (a missing or
  protected directory, a directory at the path, permission bits, a read-only
  file system) is part of its state; the open `os.File` objects are kept next
  to it;
* the external tool and the libraries around it answer from a script, one
  answer per call site of the scenario;
* `t.Fatal` ends the running function and runs its deferred calls,
  `os.Exit` ends the process and runs none.
-/

namespace TfBoilerplate

/-! ## Go values -/

/-- A Go slice: `nil` is the nil slice, `mk l` a non-nil slice holding `l`. -/
inductive Slice (α : Type) where
  | nil : Slice α
  | mk (elems : List α) : Slice α
  deriving DecidableEq, Repr

namespace Slice

/-- The elements a `range` loop visits; none for the nil slice. -/
def elems {α : Type} : Slice α → List α
  | nil => []
  | mk l => l

/-- Go `len`. -/
def len {α : Type} (s : Slice α) : Nat := s.elems.length

/-- Go index expression, `none` when out of range. -/
def get? {α : Type} (s : Slice α) (i : Nat) : Option α := s.elems.get? i

/-- Go `append(s, x)`: the result is never nil. -/
def append {α : Type} (s : Slice α) (x : α) : Slice α := mk (s.elems ++ [x])

end Slice

/-- The comparison of go-cmp on two slices with no option given: both nil, or
both non-nil and equal element by element. A nil slice and an empty non-nil
slice are not equal. -/
def cmpEqual {α : Type} [DecidableEq α] : Slice α → Slice α → Bool
  | Slice.nil, Slice.nil => true
  | Slice.mk x, Slice.mk y => decide (x = y)
  | _, _ => false

/-- The test `cmp.Diff(want, got) != ""`: the report of `cmp.Diff` is empty
exactly when `cmp.Equal` holds. -/
def diffNonEmpty {α : Type} [DecidableEq α] (want got : Slice α) : Bool :=
  !cmpEqual want got

/-! ## Plan parser (helper.go, ParseResourceAddresses) -/

/-- One entry of `Plan.ResourceChanges`; only `Address` is read. -/
structure ResourceChange where
  Address : String
  deriving DecidableEq, Repr

/-- The decoded plan document; only `ResourceChanges` is read. -/
structure Plan where
  ResourceChanges : Slice ResourceChange
  deriving DecidableEq, Repr

/-- Go: `var addreses []string; for _, resource := range plan.ResourceChanges
{ addreses = append(addreses, resource.Address) }; return addreses`. -/
def ParseResourceAddresses (plan : Plan) : Slice String :=
  plan.ResourceChanges.elems.foldl
    (fun addreses resource => addreses.append resource.Address) Slice.nil

/-! ## Operating system -/

/-- File content, one character per byte. -/
abbrev Content := List Char

/-- Error numbers the model produces. -/
inductive Errno where
  | ENOENT
  | EACCES
  | EBADF
  | ErrInvalid
  | ErrClosed
  deriving DecidableEq, Repr

/-- Flags of `os.OpenFile`. -/
inductive OpenFlag where
  | O_RDONLY
  | O_WRONLY
  | O_RDWR
  | O_APPEND
  | O_CREATE
  | O_TRUNC
  deriving DecidableEq, Repr

/-- A file of the directory: permission bits and content. -/
structure Inode where
  mode : Nat
  data : Content
  deriving DecidableEq, Repr

/-- An `*os.File` that is not nil: the identity of the open file object, the
name it was opened under and whether it was opened for writing. Offset and
closed state are mutable and live in `OS`. -/
structure File where
  fd : Nat
  name : String
  writable : Bool
  deriving DecidableEq, Repr

/-- State of the operating system. `files` are the regular files by path.
`refuseOpen path flag` is the error with which the system refuses to open
`path` with the flags `flag`, whatever the reason apart from the plain absence
of the file: a directory of the path is missing or does not allow a new entry,
the path names a directory, the mode of the file does not grant the access to
this process, the file system is read-only. `refuseRemove path` is the error
with which it refuses to remove the entry at `path` (the directory does not
allow it, the file system is read-only). The rest are the open file objects:
next free identity, offset and closed flag of each. -/
structure OS where
  files : String → Option Inode
  refuseOpen : String → List OpenFlag → Option Errno
  refuseRemove : String → Option Errno
  nextFd : Nat
  offset : Nat → Nat
  closed : Nat → Bool

/-- Update of a function at one point. -/
def upd {α β : Type} [DecidableEq α] (f : α → β) (a : α) (b : β) : α → β :=
  fun x => if x = a then b else f x

/-- Does the flag set ask for write access. -/
def wantsWrite (flag : List OpenFlag) : Bool :=
  decide (OpenFlag.O_WRONLY ∈ flag) || decide (OpenFlag.O_RDWR ∈ flag)

/-- Registers a new open file object for `name`, positioned at offset 0. -/
def OS.openObject (os : OS) (name : String) (flag : List OpenFlag) : File × OS :=
  (⟨os.nextFd, name, wantsWrite flag⟩,
   { os with
     nextFd := os.nextFd + 1
     offset := upd os.offset os.nextFd 0
     closed := upd os.closed os.nextFd false })

/-- Model of `os.OpenFile(name, flag, perm)`. When the system refuses the
open, its error is returned and nothing changes. Otherwise a missing file is
created with mode `perm` when `O_CREATE` is given and is an `ENOENT` error
when it is not, and the content of an existing file is kept unless `O_TRUNC`
is given together with write access. -/
def OpenFile (name : String) (flag : List OpenFlag) (perm : Nat) (os : OS) :
    Except Errno File × OS :=
  match os.refuseOpen name flag with
  | some e => (Except.error e, os)
  | none =>
    match os.files name with
    | none =>
      if OpenFlag.O_CREATE ∈ flag then
        let r := OS.openObject { os with files := upd os.files name (some ⟨perm, []⟩) } name flag
        (Except.ok r.1, r.2)
      else (Except.error Errno.ENOENT, os)
    | some ino =>
      if OpenFlag.O_TRUNC ∈ flag ∧ wantsWrite flag = true then
        let r := OS.openObject
          { os with files := upd os.files name (some { ino with data := [] }) } name flag
        (Except.ok r.1, r.2)
      else
        let r := OS.openObject os name flag
        (Except.ok r.1, r.2)

/-- Writing `b` into `data` at offset `off`: bytes before `off` stay (a gap is
filled with NUL), the bytes under `b` are replaced, the bytes behind stay. -/
def writeAt (data : Content) (off : Nat) (b : Content) : Content :=
  data.take off ++ List.replicate (off - data.length) (Char.ofNat 0) ++ b
    ++ data.drop (off + b.length)

/-- Model of `(*os.File).Write`. A nil file is `ErrInvalid`, a closed one
`ErrClosed`, one not opened for writing `EBADF`. Otherwise the bytes go to the
file of that name at the current offset, which advances; when the name has been
removed meanwhile the bytes reach no file of the directory. -/
def File.Write (f : Option File) (b : Content) (os : OS) : Except Errno Nat × OS :=
  match f with
  | none => (Except.error Errno.ErrInvalid, os)
  | some f =>
    if os.closed f.fd then (Except.error Errno.ErrClosed, os)
    else if !f.writable then (Except.error Errno.EBADF, os)
    else
      let off := os.offset f.fd
      let files :=
        match os.files f.name with
        | none => os.files
        | some ino => upd os.files f.name (some { ino with data := writeAt ino.data off b })
      (Except.ok b.length,
       { os with files := files, offset := upd os.offset f.fd (off + b.length) })

/-- Model of `(*os.File).Close`. -/
def File.Close (f : Option File) (os : OS) : Option Errno × OS :=
  match f with
  | none => (some Errno.ErrInvalid, os)
  | some f =>
    if os.closed f.fd then (some Errno.ErrClosed, os)
    else (none, { os with closed := upd os.closed f.fd true })

/-- Model of `(*os.File).Name`: reads a field through the pointer, so a nil
file is a nil dereference (`none`). Valid after `Close`. -/
def File.Name (f : Option File) : Option String := f.map File.name

/-- Model of `os.Remove(name)`. A missing entry is an `ENOENT` error; an
entry the system refuses to remove is the error of the refusal; in both cases
nothing changes. Otherwise the entry is removed. -/
def Remove (name : String) (os : OS) : Option Errno × OS :=
  match os.files name with
  | none => (some Errno.ENOENT, os)
  | some _ =>
    match os.refuseRemove name with
    | some e => (some e, os)
    | none => (none, { os with files := upd os.files name none })

/-! ## Provider file (helper.go) -/

/-- Go: `type Features struct{}`. -/
structure Features where
  deriving DecidableEq, Repr

/-- Go: `type AzureRm struct { Name string; Features Features }`. -/
structure AzureRm where
  Name : String
  Features : Features
  deriving DecidableEq, Repr

/-- Go: `type Provider struct { path *os.File; Provider AzureRm }`; `path` is
`none` for the nil pointer, and the field `Provider` is named `Block` here
(its tag is `hcl:"provider,block"`). -/
structure Provider where
  path : Option File
  Block : AzureRm
  deriving DecidableEq, Repr

/-- The zero value `Provider{}`. -/
def Provider.zero : Provider := ⟨none, ⟨"", ⟨⟩⟩⟩

/-- A Go `error` value. -/
inductive GoError where
  | errno (e : Errno) : GoError
  | errorf (format : String) (arg : GoError) : GoError
  deriving DecidableEq, Repr

/-- Go: `func (p Provider) Create() error`. `enc` stands for the bytes that
`gohcl.EncodeIntoBody` and `hclwrite` produce for the tagged fields of the
struct (the `provider` block; `path` carries no tag). The results of `Write`
and of the deferred `Close` are dropped and `nil` is returned. -/
def Provider.Create (enc : AzureRm → Content) (p : Provider) (os : OS) :
    Option GoError × OS :=
  let bytes := enc p.Block
  let w := File.Write p.path bytes os
  let c := File.Close p.path w.2
  (none, c.2)

/-- Go: `func (p Provider) Delete()`: `_ = os.Remove(p.path.Name())`. The
result is `none` when `p.path` is nil (the call of `Name` panics). -/
def Provider.Delete (p : Provider) (os : OS) : Option OS :=
  match File.Name p.path with
  | none => none
  | some name => some (Remove name os).2

/-- Go: `func NewProvider(path string) (Provider, error)`. -/
def NewProvider (path : String) (os : OS) : (Provider × Option GoError) × OS :=
  match OpenFile path [OpenFlag.O_WRONLY, OpenFlag.O_CREATE] 0o644 os with
  | (Except.error err, os1) =>
    ((Provider.zero,
      some (GoError.errorf "could not open provided path: %s" (GoError.errno err))), os1)
  | (Except.ok f, os1) =>
    (({ path := some f, Block := { Name := "azurerm", Features := ⟨⟩ } }, none), os1)

/-- Go: `func LocateTerraformExec() string`. `lookPath` is the answer of
`exec.LookPath("terraform")`; on an error the function prints a line and calls
`os.Exit(1)`, which is the result `Except.error 1`. -/
def LocateTerraformExec (lookPath : Option String) : Except Nat String :=
  match lookPath with
  | none => Except.error 1
  | some tfPath => Except.ok tfPath

/-! ## Module input (example_test.go) -/

/-- A Go `interface{}` holding configuration data or decoded JSON. -/
inductive Value where
  | null : Value
  | bool (b : Bool) : Value
  | num (q : ℚ) : Value
  | str (s : String) : Value
  | arr (xs : List Value) : Value
  | obj (m : String → Option Value) : Value

/-- A Go `map[string]interface{}` that is not nil. -/
abbrev VarMap := String → Option Value

/-- The map literal `map[string]interface{}{}`. -/
def VarMap.empty : VarMap := fun _ => none

/-- Go: `m[k] = v`. -/
def VarMap.set (m : VarMap) (k : String) (v : Value) : VarMap := upd m k (some v)

/-- The fields of `terraform.Options` the scenarios set. -/
structure Options where
  TerraformDir : String
  Reconfigure : Bool
  Upgrade : Bool
  Vars : VarMap

/-- Go: `func mockModuleInput(t *testing.T) *terraform.Options`. -/
def mockModuleInput : Options :=
  { TerraformDir := "../."
    Reconfigure := true
    Upgrade := true
    Vars := (VarMap.empty.set "location" (Value.str "northeurope")).set
      "resource_group_name" (Value.str "rg-test") }

/-- Go: `func mockModuleA(t *testing.T) *terraform.Options`. -/
def mockModuleA : Options :=
  { TerraformDir := "../../../terraform-azurerm-network-isolated"
    Reconfigure := true
    Upgrade := true
    Vars := (VarMap.empty.set "location" (Value.str "northeurope")).set
      "resource_group_name" (Value.str "rg-network") }

/-- Go: `func mockModuleB(t *testing.T) *terraform.Options`. -/
def mockModuleB : Options :=
  { TerraformDir := "../."
    Reconfigure := true
    Upgrade := true
    Vars := ((VarMap.empty.set "location" (Value.str "northeurope")).set
      "resource_group_name" (Value.str "rg-vm")).set "subnet_id" (Value.str "xxx") }

/-! ## Test framework and external tool -/

/-- The places where a scenario ends a case early. -/
inductive Stage where
  | newProvider
  | newTerraform
  | init
  | validateCall
  | marshal
  | notValid
  | plan
  | showPlan
  | diff
  | apply
  | idempotent
  | output
  | unmarshal
  | destroy
  deriving DecidableEq, Repr

/-- What a run leaves in its record: calls of the external tool, text written
to the standard output, lines logged through `t.Log` and the failure that
ended the case. -/
inductive Event where
  | init (dir : String) : Event
  | validate (dir : String) : Event
  | stdout (text : String) : Event
  | log (msg : String) : Event
  | plan (dir : String) (out : String) : Event
  | showPlan (dir : String) (out : String) : Event
  | apply (dir : String) : Event
  | planExitCode (dir : String) : Event
  | output (dir : String) : Event
  | destroy (dir : String) : Event
  | fatal (stage : Stage) : Event
  deriving DecidableEq, Repr

/-- State of one test run: the operating system, the record of events and
the failed flag of `testing.T`. -/
structure Run where
  os : OS
  trace : List Event
  failed : Bool

/-- A fresh run over `os`. -/
def Run.start (os : OS) : Run := ⟨os, [], false⟩

/-- Appends an event to the record. -/
def Run.emit (r : Run) (e : Event) : Run := { r with trace := r.trace ++ [e] }

/-- How the body of a test function ends: it returns, `t.Fatal` leaves it
(`runtime.Goexit`), a panic unwinds it, or `os.Exit` ends the process. -/
inductive Ending where
  | returned
  | goexit
  | panicked
  | exited (code : Nat)
  deriving DecidableEq, Repr

/-- A call registered with `defer`. -/
inductive Deferred where
  | delete (p : Provider) : Deferred
  | destroy (o : Options) : Deferred

/-- A body stopped or finished: how it ended, the deferred calls registered so
far (the last registered first) and the state reached. -/
abbrev Body := Ending × List Deferred × Run

/-- Go: `t.Fatal(...)` at `stage`: the case is marked failed and the function
is left through `runtime.Goexit`. -/
def fatalAt (stage : Stage) (ds : List Deferred) (r : Run) : Body :=
  (Ending.goexit, ds, { r.emit (Event.fatal stage) with failed := true })

/-- Runs the deferred calls, the last registered first. `terraform.Destroy`
fails the case when the tool fails (`destroyOk` of the module directory is
false); a failing or panicking deferred call does not stop the ones after it. -/
def runDeferred (destroyOk : String → Bool) : List Deferred → Run → Run
  | [], r => r
  | Deferred.delete p :: ds, r =>
    match p.Delete r.os with
    | none => runDeferred destroyOk ds { r with failed := true }
    | some os1 => runDeferred destroyOk ds { r with os := os1 }
  | Deferred.destroy o :: ds, r =>
    let r1 := r.emit (Event.destroy o.TerraformDir)
    if destroyOk o.TerraformDir then runDeferred destroyOk ds r1
    else runDeferred destroyOk ds { r1.emit (Event.fatal Stage.destroy) with failed := true }

/-- End of a test function: its deferred calls run, except when the process
was ended by `os.Exit`. -/
def finish (destroyOk : String → Bool) : Body → Ending × Run
  | (Ending.exited code, _, r) => (Ending.exited code, r)
  | (e, ds, r) => (e, runDeferred destroyOk ds r)

/-- The fields of `tfjson.Diagnostic` (severity, summary, detail). -/
structure Diagnostic where
  Severity : String
  Summary : String
  Detail : String
  deriving DecidableEq, Repr

/-- The fields of `tfjson.ValidateOutput` the Dry scenario reads. -/
structure ValidateOutput where
  Valid : Bool
  ErrorCount : Int
  WarningCount : Int
  Diagnostics : List Diagnostic
  deriving DecidableEq, Repr

/-! ## Scenario Dry (example_test.go, TestDry_Example) -/

/-- One row of the table of `TestDry_Example`. -/
structure DryTest where
  name : String
  input : Options
  want : Slice String
  planOut : String

/-- The row of the table of `TestDry_Example`; `want` is `[]string{}`. -/
def dryRow : DryTest :=
  { name := "simple-isolated-network-eun"
    input := mockModuleInput
    want := Slice.mk []
    planOut := "mockModule.tfplan" }

/-- The table of `TestDry_Example`. -/
def dryTests : List DryTest := [dryRow]

/-- Answers of the environment to the calls of one Dry case: the executable
search, `tfexec.NewTerraform`, `terraform.Init`, `tf.Validate`,
`json.Marshal` of a diagnostic, the `plan` command and `tf.ShowPlanFile`.
`none` and `false` are errors. -/
structure DryScript where
  lookPath : Option String
  newTerraform : Bool
  init : Bool
  validate : Option ValidateOutput
  marshal : Diagnostic → Option String
  plan : Bool
  showPlanFile : Option Plan

/-- Go: `t.Log(fmt.Printf("%s", msg))`. `fmt.Printf` writes the serialized
diagnostic to the standard output and returns the number of bytes written and
a nil error; these two results are what `t.Log` records, as in `45 <nil>`. -/
def logPrintf (msg : String) (r : Run) : Run :=
  (r.emit (Event.stdout msg)).emit (Event.log (toString msg.utf8ByteSize ++ " <nil>"))

/-- The loop over `validateJson.Diagnostics`: each diagnostic is serialized
and goes through `logPrintf`; `false` when a serialization fails
(`t.Fatal(err)`). -/
def logDiagnostics (marshal : Diagnostic → Option String) : List Diagnostic → Run → Bool × Run
  | [], r => (true, r)
  | d :: ds, r =>
    match marshal d with
    | none => (false, r)
    | some msg => logDiagnostics marshal ds (logPrintf msg r)

/-- Lines 103 to 107 of `TestDry_Example`: the addresses of the plan are
compared with `want`. -/
def dryCompare (test : DryTest) (ds : List Deferred) (r : Run) (planJson : Plan) : Body :=
  let got := ParseResourceAddresses planJson
  if diffNonEmpty test.want got then fatalAt Stage.diff ds r
  else (Ending.returned, ds, r)

/-- Lines 92 to 107 of `TestDry_Example`: the `plan` command with an output
file, the decoding of the plan file, the comparison. -/
def dryPlan (s : DryScript) (test : DryTest) (ds : List Deferred) (r : Run) : Body :=
  let r1 := r.emit (Event.plan test.input.TerraformDir test.planOut)
  if !s.plan then fatalAt Stage.plan ds r1 else
  let r2 := r1.emit (Event.showPlan test.input.TerraformDir test.planOut)
  match s.showPlanFile with
  | none => fatalAt Stage.showPlan ds r2
  | some planJson => dryCompare test ds r2 planJson

/-- Lines 81 to 107 of `TestDry_Example`: the check of the validate result
`validateJson`, then the plan. -/
def dryValidation (s : DryScript) (test : DryTest) (ds : List Deferred) (r : Run)
    (validateJson : ValidateOutput) : Body :=
  if !validateJson.Valid || decide (validateJson.WarningCount > 0)
      || decide (validateJson.ErrorCount > 0) then
    match logDiagnostics s.marshal validateJson.Diagnostics r with
    | (false, r1) => fatalAt Stage.marshal ds r1
    | (true, r1) => fatalAt Stage.notValid ds r1
  else dryPlan s test ds r

/-- The function literal passed to `t.Run` in `TestDry_Example`, up to the
point where it returns or is left. -/
def dryBody (enc : AzureRm → Content) (s : DryScript) (test : DryTest) (r : Run) : Body :=
  match NewProvider (test.input.TerraformDir ++ "/provider.tf") r.os with
  | ((_, some _), os1) => fatalAt Stage.newProvider [] { r with os := os1 }
  | ((provider, none), os1) =>
    let ds := [Deferred.delete provider]
    let r1 := { r with os := (provider.Create enc os1).2 }
    match LocateTerraformExec s.lookPath with
    | Except.error code => (Ending.exited code, ds, r1)
    | Except.ok _ =>
      if !s.newTerraform then fatalAt Stage.newTerraform ds r1 else
      let r2 := r1.emit (Event.init test.input.TerraformDir)
      if !s.init then fatalAt Stage.init ds r2 else
      let r3 := r2.emit (Event.validate test.input.TerraformDir)
      match s.validate with
      | none => fatalAt Stage.validateCall ds r3
      | some validateJson => dryValidation s test ds r3 validateJson

/-- One case of `TestDry_Example`, from a fresh `testing.T` to the end of its
deferred calls. -/
def dryCase (enc : AzureRm → Content) (s : DryScript) (test : DryTest) (os : OS) :
    Ending × Run :=
  finish (fun _ => true) (dryBody enc s test (Run.start os))

/-- Go: `func TestDry_Example(t *testing.T)`, over rows paired with the script
of their case. The cases run one after the other, each on the file system the
one before left; a case that ends the process ends the loop. -/
def TestDry_Example (enc : AzureRm → Content) : List (DryTest × DryScript) → OS →
    List (Ending × Run)
  | [], _ => []
  | (test, s) :: rest, os =>
    match dryCase enc s test os with
    | (Ending.exited code, r) => [(Ending.exited code, r)]
    | (e, r) => (e, r) :: TestDry_Example enc rest r.os

/-- Did the case end inside the validation step (lines 81 to 90). -/
def failedAtValidation (r : Run) : Bool :=
  decide (Event.fatal Stage.marshal ∈ r.trace) || decide (Event.fatal Stage.notValid ∈ r.trace)

/-- Was the `plan` command run. -/
def ranPlan (r : Run) : Bool := r.trace.any fun e =>
  match e with
  | Event.plan _ _ => true
  | _ => false

/-- Did the case pass: the body returned and nothing marked it failed. -/
def passed (x : Ending × Run) : Bool := decide (x.1 = Ending.returned) && !x.2.failed

/-! ## Calls of the test library (terratest) -/

/-- A call of the external tool through the test library: the call is
recorded, and when the tool fails the library fails the case at `stage`
(`require.NoError`, that is `t.FailNow`); otherwise the body goes on with
`next`. -/
def toolStep (ok : Bool) (e : Event) (stage : Stage) (ds : List Deferred) (r : Run)
    (next : Run → Body) : Body :=
  if ok then next (r.emit e) else fatalAt stage ds (r.emit e)

/-- The library call `terraform.Init(t, o)`. -/
def Init (ok : Bool) (o : Options) (ds : List Deferred) (r : Run) (next : Run → Body) : Body :=
  toolStep ok (Event.init o.TerraformDir) Stage.init ds r next

/-- The library call `terraform.Apply(t, o)`. -/
def Apply (ok : Bool) (o : Options) (ds : List Deferred) (r : Run) (next : Run → Body) : Body :=
  toolStep ok (Event.apply o.TerraformDir) Stage.apply ds r next

/-- The library call `terraform.InitAndApply(t, o)`: `init`, then `apply`. -/
def InitAndApply (initOk applyOk : Bool) (o : Options) (ds : List Deferred) (r : Run)
    (next : Run → Body) : Body :=
  Init initOk o ds r fun r1 => Apply applyOk o ds r1 next

/-- The library call `terraform.ApplyAndIdempotent(t, o)`: `apply`, then a
`plan` with detailed exit code that must report no change. -/
def ApplyAndIdempotent (applyOk unchanged : Bool) (o : Options) (ds : List Deferred) (r : Run)
    (next : Run → Body) : Body :=
  Apply applyOk o ds r fun r1 =>
    toolStep unchanged (Event.planExitCode o.TerraformDir) Stage.idempotent ds r1 next

/-! ## Scenario Unit (example_test.go, TestUT_Example) -/

/-- One row of the table of `TestUT_Example`. -/
structure UnitTest where
  name : String
  input : Options

/-- The row of the table of `TestUT_Example`. -/
def unitRow : UnitTest := { name := "simple-unittest-example", input := mockModuleInput }

/-- The table of `TestUT_Example`. -/
def unitTests : List UnitTest := [unitRow]

/-- Answers of the external tool to the calls of one Unit case. -/
structure UnitScript where
  init : Bool
  apply : Bool
  unchanged : Bool
  destroy : Bool

/-- The function literal passed to `t.Run` in `TestUT_Example`, with its own
deferred `terraform.Destroy`; the caller waits for it and goes on whatever its
result. -/
def unitSub (s : UnitScript) (test : UnitTest) (r : Run) : Ending × Run :=
  finish (fun _ => s.destroy)
    (Init s.init test.input [Deferred.destroy test.input] r fun r1 =>
      ApplyAndIdempotent s.apply s.unchanged test.input [Deferred.destroy test.input] r1 fun r2 =>
        (Ending.returned, [Deferred.destroy test.input], r2))

/-- The loop of `TestUT_Example` over its table: the provider file of each row
is installed in the test function itself, so its removal is deferred to the
end of the whole function. -/
def unitLoop (enc : AzureRm → Content) :
    List (UnitTest × UnitScript) → List Deferred → Run → Body
  | [], ds, r => (Ending.returned, ds, r)
  | (test, s) :: rest, ds, r =>
    match NewProvider (test.input.TerraformDir ++ "/provider.tf") r.os with
    | ((_, some _), os1) => fatalAt Stage.newProvider ds { r with os := os1 }
    | ((provider, none), os1) =>
      let ds1 := Deferred.delete provider :: ds
      let r1 := { r with os := (provider.Create enc os1).2 }
      unitLoop enc rest ds1 (unitSub s test r1).2

/-- Go: `func TestUT_Example(t *testing.T)`, over rows paired with the script
of their case. -/
def TestUT_Example (enc : AzureRm → Content) (rows : List (UnitTest × UnitScript)) (os : OS) :
    Ending × Run :=
  finish (fun _ => true) (unitLoop enc rows [] (Run.start os))

/-! ## Scenario Integration (example_test.go, TestIT_Example) -/

/-- Answers of the environment to the calls of one Integration case over the
modules A and B: `init` and `apply` of A, `terraform.OutputJson` of A,
`json.Unmarshal` into a `map[string]interface{}`, `init`, `apply` and the
idempotency check of B, and `destroy` by module directory. -/
structure ITScript where
  initA : Bool
  applyA : Bool
  outputA : Option String
  unmarshal : String → Option VarMap
  initB : Bool
  applyB : Bool
  unchangedB : Bool
  destroy : String → Bool

/-- Go: `mockModuleBInput["subnet_id"].(map[string]interface{})["value"].(string)`;
`none` when a type assertion fails (a panic). -/
def subnetIdValue (doc : VarMap) : Option String :=
  match doc "subnet_id" with
  | some (Value.obj m) =>
    match m "value" with
    | some (Value.str v) => some v
    | _ => none
  | _ => none

/-- The wiring step (lines 232 and 235): `vnetId` is read from the decoded
outputs and stored as `test.input[1].Vars["virtual_network_id"]`. -/
def wire (doc : VarMap) (B : Options) : Option Options :=
  match subnetIdValue doc with
  | none => none
  | some vnetId => some { B with Vars := B.Vars.set "virtual_network_id" (Value.str vnetId) }

/-- The function literal passed to `t.Run` in `TestIT_Example` for the module
list `[A, B]`, up to the point where it returns or is left. -/
def itBody (enc : AzureRm → Content) (s : ITScript) (A B : Options) (r : Run) : Body :=
  match NewProvider (A.TerraformDir ++ "/provider.tf") r.os with
  | ((_, some _), os1) => fatalAt Stage.newProvider [] { r with os := os1 }
  | ((networkProvider, none), os1) =>
    let ds1 := [Deferred.delete networkProvider]
    let r1 := { r with os := (networkProvider.Create enc os1).2 }
    match NewProvider (B.TerraformDir ++ "/provider.tf") r1.os with
    | ((_, some _), os2) => fatalAt Stage.newProvider ds1 { r1 with os := os2 }
    | ((aksProvider, none), os2) =>
      let ds2 := Deferred.delete aksProvider :: ds1
      let r2 := { r1 with os := (aksProvider.Create enc os2).2 }
      let ds3 := Deferred.destroy A :: ds2
      InitAndApply s.initA s.applyA A ds3 r2 fun r3 =>
        let r4 := r3.emit (Event.output A.TerraformDir)
        match s.outputA with
        | none => fatalAt Stage.output ds3 r4
        | some mockModuleAOutput =>
          match s.unmarshal mockModuleAOutput with
          | none => fatalAt Stage.unmarshal ds3 r4
          | some mockModuleBInput =>
            match wire mockModuleBInput B with
            | none => (Ending.panicked, ds3, r4)
            | some B1 =>
              let ds4 := Deferred.destroy B1 :: ds3
              Init s.initB B1 ds4 r4 fun r5 =>
                ApplyAndIdempotent s.applyB s.unchangedB B1 ds4 r5 fun r6 =>
                  (Ending.returned, ds4, r6)

/-- One case of `TestIT_Example`, from a fresh `testing.T` to the end of its
deferred calls. -/
def itCase (enc : AzureRm → Content) (s : ITScript) (A B : Options) (os : OS) :
    Ending × Run :=
  finish s.destroy (itBody enc s A B (Run.start os))

/-- Go: `func TestIT_Example(t *testing.T)`; its table has one row, over the
module list `[mockModuleA, mockModuleB]`. -/
def TestIT_Example (enc : AzureRm → Content) (s : ITScript) (os : OS) : Ending × Run :=
  itCase enc s mockModuleA mockModuleB os

/-- The module directories `destroy` was invoked on, in order. -/
def destroys : List Event → List String
  | [] => []
  | Event.destroy dir :: es => dir :: destroys es
  | _ :: es => destroys es

/-- Can `NewProvider` open `path` in `os`: the system does not refuse the
open for writing with creation. -/
def openable (os : OS) (path : String) : Bool :=
  (os.refuseOpen path [OpenFlag.O_WRONLY, OpenFlag.O_CREATE]).isNone

/-- Is the event text output: a write to the standard output or a logged
line. -/
def Event.isOutput : Event → Bool
  | Event.stdout _ => true
  | Event.log _ => true
  | _ => false

/-- Did the steps before the deployment of B all succeed: `init` and `apply`
of A, the output read, the JSON decode and the wiring. -/
def ITScript.reachesB (s : ITScript) : Bool :=
  s.initA && s.applyA &&
    match s.outputA with
    | none => false
    | some out =>
      match s.unmarshal out with
      | none => false
      | some doc => (subnetIdValue doc).isSome

/-- The module directories of the deferred `terraform.Destroy` calls, in the
order in which they will run. -/
def deferredDestroys : List Deferred → List String
  | [] => []
  | Deferred.destroy o :: ds => o.TerraformDir :: deferredDestroys ds
  | Deferred.delete _ :: ds => deferredDestroys ds

/-! ## Fixtures -/

/-- The text of the provider block as the encoder writes it: an empty line,
the block labelled `Name`, an empty line, the empty `features` block. For
`azurerm` these are 42 bytes. -/
def hclText (a : AzureRm) : Content :=
  ("\nprovider \"" ++ a.Name ++ "\" \x7b\n\n  features \x7b\n  \x7d\n\x7d\n").toList

/-- A system with no file, in which nothing is refused, and with no open file
object beyond the standard streams. -/
def OS.empty : OS :=
  { files := fun _ => none
    refuseOpen := fun _ _ => none
    refuseRemove := fun _ => none
    nextFd := 3
    offset := fun _ => 0
    closed := fun _ => false }

/-- The system `os` refusing with `e` every removal of an entry, as when the
directories do not allow it. -/
def OS.refusingRemove (os : OS) (e : Errno) : OS :=
  { os with refuseRemove := fun _ => some e }

/-- The system `os` refusing with `e` to open `name`, whatever the flags. -/
def OS.refusingOpen (os : OS) (name : String) (e : Errno) : OS :=
  { os with refuseOpen := fun n flag => if n = name then some e else os.refuseOpen n flag }

/-- The system `os` with the file `name` set to `ino`. -/
def OS.withFile (os : OS) (name : String) (ino : Inode) : OS :=
  { os with files := upd os.files name (some ino) }

/-- A script of a Dry case in which every call succeeds and `validate` and
`show` answer `v` and `plan`. -/
def DryScript.allOk (v : ValidateOutput) (plan : Plan) : DryScript :=
  { lookPath := some "/usr/bin/terraform"
    newTerraform := true
    init := true
    validate := some v
    marshal := fun d => some d.Summary
    plan := true
    showPlanFile := some plan }

/-- A script of an Integration case in which every call succeeds and the
outputs of A decode to `doc`. -/
def ITScript.allOk (doc : VarMap) : ITScript :=
  { initA := true
    applyA := true
    outputA := some "outputs"
    unmarshal := fun _ => some doc
    initB := true
    applyB := true
    unchangedB := true
    destroy := fun _ => true }

/-- The decoded outputs `{"subnet_id":{"value":"s-1"}}`. -/
def outputsS1 : VarMap :=
  VarMap.empty.set "subnet_id" (Value.obj (VarMap.empty.set "value" (Value.str "s-1")))

/-! # Verification -/

/-! ## Facts about the model of the operating system -/

theorem upd_same {α β : Type} [DecidableEq α] (f : α → β) (a : α) (b : β) :
    upd f a b a = b := by
  simp [upd]

theorem upd_other {α β : Type} [DecidableEq α] (f : α → β) (a x : α) (b : β) (h : x ≠ a) :
    upd f a b x = f x := by
  simp [upd, h]

theorem upd_eq_self {α β : Type} [DecidableEq α] (f : α → β) (a : α) (b : β) (h : f a = b) :
    upd f a b = f := by
  funext x
  by_cases hx : x = a
  · subst hx; simp [upd, h]
  · simp [upd, hx]

/-! ## Plan parser -/

theorem foldl_append_elems (rs : List ResourceChange) (acc : Slice String) :
    (rs.foldl (fun addreses resource => addreses.append resource.Address) acc).elems
      = acc.elems ++ rs.map ResourceChange.Address := by
  induction rs generalizing acc with
  | nil => simp
  | cons r rs ih =>
    rw [List.foldl_cons, ih]
    cases acc <;> simp [Slice.append, Slice.elems]

theorem ParseResourceAddresses_elems (plan : Plan) :
    (ParseResourceAddresses plan).elems
      = plan.ResourceChanges.elems.map ResourceChange.Address := by
  unfold ParseResourceAddresses
  rw [foldl_append_elems]
  rfl

/-- C1: the parser returns one entry per resource change of the plan, and
the entry at every index is the unmodified address of the resource change at
that index (same length, same order, nothing dropped or rewritten). -/
theorem ParseResourceAddresses_positional (plan : Plan) :
    (ParseResourceAddresses plan).len = plan.ResourceChanges.len ∧
    ∀ i : Nat, (ParseResourceAddresses plan).get? i
      = (plan.ResourceChanges.get? i).map ResourceChange.Address := by
  constructor
  · simp [Slice.len, ParseResourceAddresses_elems]
  · intro i
    simp [Slice.get?, ParseResourceAddresses_elems, List.getElem?_map]

/-- C2 (the code departs from the claim): for a plan with no resource change,
nil or empty, the parser returns the nil slice; the comparison with the
`want` of the table, the empty non-nil list, reports a difference; and the
Dry case of the table, with every call of the tool succeeding on such a plan,
ends failed at the comparison instead of passing. -/
theorem dry_empty_plan_case_fails :
    ParseResourceAddresses ⟨Slice.nil⟩ = Slice.nil ∧
    ParseResourceAddresses ⟨Slice.mk []⟩ = Slice.nil ∧
    dryRow.want = Slice.mk [] ∧
    diffNonEmpty dryRow.want (ParseResourceAddresses ⟨Slice.mk []⟩) = true ∧
    diffNonEmpty dryRow.want (ParseResourceAddresses ⟨Slice.nil⟩) = true ∧
    passed (dryCase hclText (DryScript.allOk ⟨true, 0, 0, []⟩ ⟨Slice.mk []⟩) dryRow OS.empty)
      = false ∧
    Event.fatal Stage.diff ∈
      (dryCase hclText (DryScript.allOk ⟨true, 0, 0, []⟩ ⟨Slice.mk []⟩) dryRow OS.empty).2.trace := by
  refine ⟨by decide, by decide, rfl, by decide, by decide, by decide, by decide⟩

/-! ## Provider file -/

theorem openable_iff (os : OS) (path : String) :
    openable os path = true ↔
      os.refuseOpen path [OpenFlag.O_WRONLY, OpenFlag.O_CREATE] = none := by
  simp [openable]

/-- The result of `NewProvider` when the file is missing and the open is not
refused: the file is created empty with mode 0644. -/
theorem NewProvider_missing (path : String) (os : OS) (h : os.files path = none)
    (ho : openable os path = true) :
    NewProvider path os =
      ((⟨some ⟨os.nextFd, path, true⟩, ⟨"azurerm", ⟨⟩⟩⟩, none),
       { os with
         files := upd os.files path (some ⟨0o644, []⟩)
         nextFd := os.nextFd + 1
         offset := upd os.offset os.nextFd 0
         closed := upd os.closed os.nextFd false }) := by
  rw [openable_iff] at ho
  simp [NewProvider, OpenFile, h, ho, OS.openObject, wantsWrite]

/-- The result of `NewProvider` when the file exists and the open is not
refused: the content is kept. -/
theorem NewProvider_existing (path : String) (os : OS) (ino : Inode)
    (h : os.files path = some ino) (ho : openable os path = true) :
    NewProvider path os =
      ((⟨some ⟨os.nextFd, path, true⟩, ⟨"azurerm", ⟨⟩⟩⟩, none),
       { os with
         nextFd := os.nextFd + 1
         offset := upd os.offset os.nextFd 0
         closed := upd os.closed os.nextFd false }) := by
  rw [openable_iff] at ho
  simp [NewProvider, OpenFile, h, ho, OS.openObject, wantsWrite]

/-- The result of `NewProvider` when the system refuses the open. -/
theorem NewProvider_denied (path : String) (os : OS) (e : Errno)
    (h : os.refuseOpen path [OpenFlag.O_WRONLY, OpenFlag.O_CREATE] = some e) :
    NewProvider path os =
      ((Provider.zero,
        some (GoError.errorf "could not open provided path: %s" (GoError.errno e))),
       os) := by
  simp [NewProvider, OpenFile, h]

theorem writeAt_zero (data b : Content) : writeAt data 0 b = b ++ data.drop b.length := by
  simp [writeAt]

/-- Installing the provider file where none exists: the file holds exactly
the serialized declaration. -/
theorem install_missing (enc : AzureRm → Content) (path : String) (os : OS)
    (h : os.files path = none) (ho : openable os path = true) :
    ((NewProvider path os).1.1.Create enc (NewProvider path os).2).2.files path
      = some ⟨0o644, enc ⟨"azurerm", ⟨⟩⟩⟩ := by
  rw [NewProvider_missing path os h ho]
  simp [Provider.Create, File.Write, File.Close, upd, writeAt]

/-- Installing the provider file over an existing file: the declaration
replaces the first bytes and the bytes behind them stay. -/
theorem install_existing (enc : AzureRm → Content) (path : String) (os : OS) (ino : Inode)
    (h : os.files path = some ino) (ho : openable os path = true) :
    ((NewProvider path os).1.1.Create enc (NewProvider path os).2).2.files path
      = some ⟨ino.mode, enc ⟨"azurerm", ⟨⟩⟩ ++ ino.data.drop (enc ⟨"azurerm", ⟨⟩⟩).length⟩ := by
  rw [NewProvider_existing path os ino h ho]
  simp [Provider.Create, File.Write, File.Close, upd, writeAt, h]

/-- Installing the provider file leaves every other file as it was. -/
theorem install_frame (enc : AzureRm → Content) (path : String) (os : OS) (n : String)
    (hn : n ≠ path) :
    ((NewProvider path os).1.1.Create enc (NewProvider path os).2).2.files n = os.files n := by
  cases hr : os.refuseOpen path [OpenFlag.O_WRONLY, OpenFlag.O_CREATE] with
  | some e =>
    rw [NewProvider_denied path os e hr]
    simp [Provider.Create, File.Write, File.Close, Provider.zero]
  | none =>
    have ho : openable os path = true := (openable_iff os path).2 hr
    cases h : os.files path with
    | none =>
      rw [NewProvider_missing path os h ho]
      simp [Provider.Create, File.Write, File.Close, upd, hn]
    | some ino =>
      rw [NewProvider_existing path os ino h ho]
      simp [Provider.Create, File.Write, File.Close, upd, hn, h]

/-- Neither `NewProvider` nor `Create` changes what the system refuses. -/
theorem NewProvider_refusals (path : String) (os : OS) :
    (NewProvider path os).2.refuseOpen = os.refuseOpen ∧
      (NewProvider path os).2.refuseRemove = os.refuseRemove := by
  cases hr : os.refuseOpen path [OpenFlag.O_WRONLY, OpenFlag.O_CREATE] with
  | some e => rw [NewProvider_denied path os e hr]; exact ⟨rfl, rfl⟩
  | none =>
    have ho : openable os path = true := (openable_iff os path).2 hr
    cases h : os.files path with
    | none => rw [NewProvider_missing path os h ho]; exact ⟨rfl, rfl⟩
    | some ino => rw [NewProvider_existing path os ino h ho]; exact ⟨rfl, rfl⟩

theorem Create_refusals (enc : AzureRm → Content) (p : Provider) (os : OS) :
    (p.Create enc os).2.refuseOpen = os.refuseOpen ∧
      (p.Create enc os).2.refuseRemove = os.refuseRemove := by
  unfold Provider.Create File.Write File.Close
  cases p.path with
  | none => exact ⟨rfl, rfl⟩
  | some f =>
    cases hc : os.closed f.fd with
    | true => simp [hc]
    | false =>
      cases hw : f.writable with
      | false => simp [hc, hw]
      | true => simp [hc, hw, upd]

theorem Remove_refusals (name : String) (os : OS) :
    (Remove name os).2.refuseOpen = os.refuseOpen ∧
      (Remove name os).2.refuseRemove = os.refuseRemove := by
  unfold Remove
  cases os.files name with
  | none => exact ⟨rfl, rfl⟩
  | some ino =>
    cases os.refuseRemove name with
    | none => exact ⟨rfl, rfl⟩
    | some e => exact ⟨rfl, rfl⟩

/-- C3 (the code departs from the claim): the file `provider.tf` holds 60
bytes `x` before; after `NewProvider` succeeds and `Create` is called, it
holds the 42 bytes of the declaration followed by the last 18 bytes `x` of the
prior content, which is not the serialized declaration: the file is opened
without `O_TRUNC`. -/
theorem Create_keeps_tail_of_longer_content :
    (NewProvider "provider.tf"
        (OS.empty.withFile "provider.tf" ⟨0o644, List.replicate 60 'x'⟩)).1.2 = none ∧
    ((NewProvider "provider.tf"
        (OS.empty.withFile "provider.tf" ⟨0o644, List.replicate 60 'x'⟩)).1.1.Create hclText
      (NewProvider "provider.tf"
        (OS.empty.withFile "provider.tf" ⟨0o644, List.replicate 60 'x'⟩)).2).2.files "provider.tf"
      = some ⟨0o644, hclText ⟨"azurerm", ⟨⟩⟩ ++ List.replicate 18 'x'⟩ ∧
    hclText ⟨"azurerm", ⟨⟩⟩ ++ List.replicate 18 'x' ≠ hclText ⟨"azurerm", ⟨⟩⟩ := by
  refine ⟨by decide, by decide, by decide⟩

/-- On a handle that holds a file, `Delete` is `os.Remove` of its name with the
result dropped. -/
theorem Delete_of_file (p : Provider) (f : File) (os : OS) (h : p.path = some f) :
    p.Delete os = some (Remove f.name os).2 := by
  simp [Provider.Delete, File.Name, h]

/-- After an `os.Remove` that the system does not refuse, no file has the
name, whether it existed or not. -/
theorem Remove_files_same (name : String) (os : OS) (hr : os.refuseRemove name = none) :
    (Remove name os).2.files name = none := by
  unfold Remove
  cases hf : os.files name with
  | none => simpa using hf
  | some ino => simp [hr, upd]

/-- An `os.Remove` leaves every other file as it was. -/
theorem Remove_files_other (name n : String) (os : OS) (hn : n ≠ name) :
    (Remove name os).2.files n = os.files n := by
  unfold Remove
  cases hf : os.files name with
  | none => rfl
  | some ino =>
    cases hr : os.refuseRemove name with
    | some e => rfl
    | none => simp [upd, hn]

/-- An `os.Remove` of a missing entry, or one that the system refuses, changes
nothing. -/
theorem Remove_unchanged (name : String) (os : OS)
    (h : os.files name = none ∨ ∃ e, os.refuseRemove name = some e) :
    (Remove name os).2 = os := by
  unfold Remove
  cases hf : os.files name with
  | none => rfl
  | some ino =>
    rcases h with h | ⟨e, he⟩
    · simp [hf] at h
    · simp [he]

/-- A second `os.Remove` of the same name changes nothing. -/
theorem Remove_twice (name : String) (os : OS) :
    (Remove name (Remove name os).2).2 = (Remove name os).2 := by
  cases hf : os.files name with
  | none =>
    rw [Remove_unchanged name os (Or.inl hf), Remove_unchanged name os (Or.inl hf)]
  | some ino =>
    cases hr : os.refuseRemove name with
    | some e =>
      rw [Remove_unchanged name os (Or.inr ⟨e, hr⟩), Remove_unchanged name os (Or.inr ⟨e, hr⟩)]
    | none =>
      exact Remove_unchanged name _ (Or.inl (Remove_files_same name os hr))

/-- C4 (as stated, refuted): the file `provider.tf` exists and the system
refuses to remove entries (its directory does not allow it); `NewProvider`
opens the file, and `Delete` on the returned handle completes silently but
the file is still there. On the zero handle, the one `NewProvider` returns
next to an error, `Delete` does not complete: `Name` is called on a nil
file. -/
theorem Delete_leaves_file_when_removal_refused :
    (NewProvider "provider.tf"
      ((OS.empty.withFile "provider.tf" ⟨0o644, []⟩).refusingRemove Errno.EACCES)).1.2 = none ∧
    (∃ os1, (NewProvider "provider.tf"
        ((OS.empty.withFile "provider.tf" ⟨0o644, []⟩).refusingRemove Errno.EACCES)).1.1.Delete
        (NewProvider "provider.tf"
          ((OS.empty.withFile "provider.tf" ⟨0o644, []⟩).refusingRemove Errno.EACCES)).2
          = some os1 ∧
      os1.files "provider.tf" = some ⟨0o644, []⟩) ∧
    (NewProvider "provider.tf" (OS.empty.refusingOpen "provider.tf" Errno.EACCES)).1.1
      = Provider.zero ∧
    Provider.zero.Delete OS.empty = none := by
  refine ⟨by decide, ⟨_, rfl, by decide⟩, by decide, rfl⟩

/-- C4 (as amended): on a handle that holds a file (what `NewProvider`
returns without an error), in every state of the file system, `Delete`
completes and reports nothing, whatever `os.Remove` answers, and every other
file is as before. When the system does not refuse the removal, no file
exists at the path of the handle afterwards. When the file was already gone,
or the removal is refused, the state is unchanged. A second `Delete` changes
nothing. -/
theorem Delete_silent_unless_refused (p : Provider) (f : File) (os : OS)
    (h : p.path = some f) :
    ∃ os1, p.Delete os = some os1 ∧
      (os.refuseRemove f.name = none → os1.files f.name = none) ∧
      (∀ n, n ≠ f.name → os1.files n = os.files n) ∧
      (os.files f.name = none → os1 = os) ∧
      ((∃ e, os.refuseRemove f.name = some e) → os1 = os) ∧
      p.Delete os1 = some os1 := by
  refine ⟨(Remove f.name os).2, Delete_of_file p f os h, ?_, ?_, ?_, ?_, ?_⟩
  · exact fun hr => Remove_files_same f.name os hr
  · exact fun n hn => Remove_files_other f.name n os hn
  · exact fun hf => Remove_unchanged f.name os (Or.inl hf)
  · exact fun hr => Remove_unchanged f.name os (Or.inr hr)
  · rw [Delete_of_file p f _ h, Remove_twice]

theorem Delete_silent_unless_refused_witness :
    ∃ os1, (NewProvider "provider.tf" OS.empty).1.1.Delete
        (NewProvider "provider.tf" OS.empty).2 = some os1 ∧
      ((NewProvider "provider.tf" OS.empty).2.refuseRemove
          (File.mk 3 "provider.tf" true).name = none →
        os1.files (File.mk 3 "provider.tf" true).name = none) ∧
      (∀ n, n ≠ (File.mk 3 "provider.tf" true).name →
        os1.files n = (NewProvider "provider.tf" OS.empty).2.files n) ∧
      ((NewProvider "provider.tf" OS.empty).2.files (File.mk 3 "provider.tf" true).name = none →
        os1 = (NewProvider "provider.tf" OS.empty).2) ∧
      ((∃ e, (NewProvider "provider.tf" OS.empty).2.refuseRemove
          (File.mk 3 "provider.tf" true).name = some e) →
        os1 = (NewProvider "provider.tf" OS.empty).2) ∧
      (NewProvider "provider.tf" OS.empty).1.1.Delete os1 = some os1 :=
  Delete_silent_unless_refused (NewProvider "provider.tf" OS.empty).1.1
    (File.mk 3 "provider.tf" true) (NewProvider "provider.tf" OS.empty).2 (by decide)

/-- C5: for every path and state, `NewProvider` returns an error exactly when
`os.OpenFile(path, O_WRONLY|O_CREATE, 0644)` fails; then the handle is the
zero value and the error wraps the one of the open; otherwise the error is nil
and the handle holds the opened file, the name `azurerm` and an empty features
block. -/
theorem NewProvider_error_iff_open_fails (path : String) (os : OS) :
    ((NewProvider path os).1.2 ≠ none ↔
      ∃ e, (OpenFile path [OpenFlag.O_WRONLY, OpenFlag.O_CREATE] 0o644 os).1 = Except.error e) ∧
    ((∃ e, (OpenFile path [OpenFlag.O_WRONLY, OpenFlag.O_CREATE] 0o644 os).1 = Except.error e ∧
        (NewProvider path os).1 = (Provider.zero,
          some (GoError.errorf "could not open provided path: %s" (GoError.errno e)))) ∨
     (∃ f, (OpenFile path [OpenFlag.O_WRONLY, OpenFlag.O_CREATE] 0o644 os).1 = Except.ok f ∧
        (NewProvider path os).1.2 = none ∧
        (NewProvider path os).1.1.path = some f ∧
        (NewProvider path os).1.1.Block.Name = "azurerm" ∧
        (NewProvider path os).1.1.Block.Features = Features.mk)) := by
  unfold NewProvider
  rcases hopen : OpenFile path [OpenFlag.O_WRONLY, OpenFlag.O_CREATE] 0o644 os with ⟨res, os1⟩
  cases res with
  | error e => simp
  | ok f => simp

/-- C6 (the code departs from the claim): on the zero handle the write fails
with `ErrInvalid`, and on a handle already used by `Create` it fails with
`ErrClosed`; in both cases `Create` returns nil. For every handle and state
`Create` returns nil, so no failed write is ever reported. -/
theorem Create_hides_failed_write :
    (∀ (enc : AzureRm → Content) (os : OS),
      (File.Write Provider.zero.path (enc Provider.zero.Block) os).1
        = Except.error Errno.ErrInvalid ∧
      (Provider.zero.Create enc os).1 = none) ∧
    ((File.Write (NewProvider "provider.tf" OS.empty).1.1.path
        (hclText (NewProvider "provider.tf" OS.empty).1.1.Block)
        ((NewProvider "provider.tf" OS.empty).1.1.Create hclText
          (NewProvider "provider.tf" OS.empty).2).2).1 = Except.error Errno.ErrClosed ∧
      ((NewProvider "provider.tf" OS.empty).1.1.Create hclText
        ((NewProvider "provider.tf" OS.empty).1.1.Create hclText
          (NewProvider "provider.tf" OS.empty).2).2).1 = none) ∧
    (∀ (enc : AzureRm → Content) (p : Provider) (os : OS), (p.Create enc os).1 = none) := by
  refine ⟨fun enc os => ⟨rfl, rfl⟩, ⟨rfl, rfl⟩, fun enc p os => rfl⟩

/-! ## Scenarios -/

/-- When the path can be opened, `NewProvider` returns a handle on a file of
that name and no error. -/
theorem NewProvider_ok_of_openable (path : String) (os : OS) (h : openable os path = true) :
    ∃ fd os1, NewProvider path os
      = ((⟨some ⟨fd, path, true⟩, ⟨"azurerm", ⟨⟩⟩⟩, none), os1) := by
  cases hf : os.files path with
  | none => exact ⟨_, _, NewProvider_missing path os hf h⟩
  | some ino => exact ⟨_, _, NewProvider_existing path os ino hf h⟩

/-- When the path cannot be opened, `NewProvider` returns an error and leaves
the state as it was. -/
theorem NewProvider_err_of_not_openable (path : String) (os : OS)
    (h : openable os path = false) :
    ∃ err, NewProvider path os = ((Provider.zero, some err), os) := by
  cases hr : os.refuseOpen path [OpenFlag.O_WRONLY, OpenFlag.O_CREATE] with
  | none => simp [openable, hr] at h
  | some e => exact ⟨_, NewProvider_denied path os e hr⟩

/-- Text output is neither a failure nor a call of the tool. -/
theorem not_fatal_of_isOutput (evs : List Event) (h : ∀ e ∈ evs, e.isOutput = true)
    (st : Stage) : Event.fatal st ∉ evs := by
  intro hmem
  have := h _ hmem
  simp [Event.isOutput] at this

theorem no_plan_of_isOutput (evs : List Event) (h : ∀ e ∈ evs, e.isOutput = true) :
    (evs.any fun e =>
      match e with
      | Event.plan _ _ => true
      | _ => false) = false := by
  rw [List.any_eq_false]
  intro e he
  have := h e he
  cases e <;> simp [Event.isOutput] at this ⊢

theorem logDiagnostics_trace (marshal : Diagnostic → Option String) (ds : List Diagnostic)
    (r : Run) :
    ∃ evs : List Event,
      (logDiagnostics marshal ds r).2.trace = r.trace ++ evs ∧
      (∀ e ∈ evs, e.isOutput = true) ∧
      (logDiagnostics marshal ds r).2.os = r.os := by
  induction ds generalizing r with
  | nil => exact ⟨[], by simp [logDiagnostics]⟩
  | cons d ds ih =>
    cases hm : marshal d with
    | none => exact ⟨[], by simp [logDiagnostics, hm]⟩
    | some msg =>
      obtain ⟨evs, h1, h2, h3⟩ := ih (logPrintf msg r)
      refine ⟨Event.stdout msg :: Event.log (toString msg.utf8ByteSize ++ " <nil>") :: evs,
        ?_, ?_, ?_⟩
      · simp only [logDiagnostics, hm]
        rw [h1]
        simp [logPrintf, Run.emit]
      · intro e he
        rcases List.mem_cons.1 he with h | he
        · subst h; rfl
        · rcases List.mem_cons.1 he with h | he
          · subst h; rfl
          · exact h2 e he
      · simp only [logDiagnostics, hm]
        rw [h3]
        simp [logPrintf, Run.emit]

theorem runDeferred_delete_trace (d : String → Bool) (p : Provider) (r : Run) :
    (runDeferred d [Deferred.delete p] r).trace = r.trace := by
  cases h : p.Delete r.os <;> simp [runDeferred, h]

theorem dryPlan_trace (s : DryScript) (test : DryTest) (p : Provider) (r : Run) :
    ∃ rest, (finish (fun _ => true) (dryPlan s test [Deferred.delete p] r)).2.trace
        = r.trace ++ Event.plan test.input.TerraformDir test.planOut :: rest ∧
      Event.fatal Stage.marshal ∉ rest ∧ Event.fatal Stage.notValid ∉ rest := by
  unfold dryPlan
  cases hp : s.plan with
  | false =>
    refine ⟨[Event.fatal Stage.plan], ?_, by decide, by decide⟩
    simp [finish, fatalAt, runDeferred_delete_trace, Run.emit]
  | true =>
    cases hs : s.showPlanFile with
    | none =>
      refine ⟨[Event.showPlan test.input.TerraformDir test.planOut, Event.fatal Stage.showPlan],
        ?_, by simp, by simp⟩
      simp [finish, fatalAt, runDeferred_delete_trace, Run.emit]
    | some planJson =>
      cases hd : diffNonEmpty test.want (ParseResourceAddresses planJson) with
      | true =>
        refine ⟨[Event.showPlan test.input.TerraformDir test.planOut, Event.fatal Stage.diff],
          ?_, by simp, by simp⟩
        simp [dryCompare, hd, finish, fatalAt, runDeferred_delete_trace, Run.emit]
      | false =>
        refine ⟨[Event.showPlan test.input.TerraformDir test.planOut], ?_, by simp, by simp⟩
        simp [dryCompare, hd, finish, runDeferred_delete_trace, Run.emit]

theorem dryValidation_trace_fail (s : DryScript) (test : DryTest) (p : Provider) (r : Run)
    (v : ValidateOutput)
    (hb : (!v.Valid || decide (v.WarningCount > 0) || decide (v.ErrorCount > 0)) = true) :
    ∃ (evs : List Event) (st : Stage), (st = Stage.marshal ∨ st = Stage.notValid) ∧
      (∀ e ∈ evs, e.isOutput = true) ∧
      (finish (fun _ => true) (dryValidation s test [Deferred.delete p] r v)).2.trace
        = r.trace ++ evs ++ [Event.fatal st] := by
  obtain ⟨evs, ht, hout, -⟩ := logDiagnostics_trace s.marshal v.Diagnostics r
  unfold dryValidation
  rw [if_pos hb]
  rcases hl : logDiagnostics s.marshal v.Diagnostics r with ⟨b, r1⟩
  rw [hl] at ht
  cases b with
  | false =>
    refine ⟨evs, Stage.marshal, Or.inl rfl, hout, ?_⟩
    simp at ht
    simp [finish, fatalAt, runDeferred_delete_trace, Run.emit, ht]
  | true =>
    refine ⟨evs, Stage.notValid, Or.inr rfl, hout, ?_⟩
    simp at ht
    simp [finish, fatalAt, runDeferred_delete_trace, Run.emit, ht]

/-- A Dry case that reaches the validation step is the validation stage run
after `init` and `validate`, followed by the deferred removal. -/
theorem dryCase_reaches_validation (enc : AzureRm → Content) (s : DryScript) (test : DryTest)
    (os : OS) (v : ValidateOutput) (tfPath : String)
    (hopen : openable os (test.input.TerraformDir ++ "/provider.tf") = true)
    (hlook : s.lookPath = some tfPath) (hnew : s.newTerraform = true) (hinit : s.init = true)
    (hval : s.validate = some v) :
    ∃ p r, r.trace = [Event.init test.input.TerraformDir, Event.validate test.input.TerraformDir] ∧
      dryCase enc s test os
        = finish (fun _ => true) (dryValidation s test [Deferred.delete p] r v) := by
  obtain ⟨fd, os1, hnp⟩ := NewProvider_ok_of_openable _ os hopen
  refine ⟨⟨some ⟨fd, test.input.TerraformDir ++ "/provider.tf", true⟩, ⟨"azurerm", ⟨⟩⟩⟩,
    ((Run.mk (Provider.Create enc
      ⟨some ⟨fd, test.input.TerraformDir ++ "/provider.tf", true⟩, ⟨"azurerm", ⟨⟩⟩⟩ os1).2 []
        false).emit (Event.init test.input.TerraformDir)).emit
          (Event.validate test.input.TerraformDir), ?_, ?_⟩
  · simp [Run.emit]
  · simp only [dryCase, dryBody, Run.start, hnp, hlook, hnew, hinit, hval, LocateTerraformExec]
    rfl

/-- C10: in a Dry case that reaches the validation step (the provider file is
installed, the tool is found, the driver and `init` succeed, `validate`
returns the result `v`), the case fails inside the validation step without
running `plan` exactly when `v` is not valid, or its warning count is above 0,
or its error count is above 0; otherwise `plan` is run. -/
theorem dry_validation_gate (enc : AzureRm → Content) (s : DryScript) (test : DryTest) (os : OS)
    (v : ValidateOutput) (tfPath : String)
    (hopen : openable os (test.input.TerraformDir ++ "/provider.tf") = true)
    (hlook : s.lookPath = some tfPath) (hnew : s.newTerraform = true) (hinit : s.init = true)
    (hval : s.validate = some v) :
    ((failedAtValidation (dryCase enc s test os).2 = true ∧
        ranPlan (dryCase enc s test os).2 = false) ↔
      (v.Valid = false ∨ v.WarningCount > 0 ∨ v.ErrorCount > 0)) ∧
    (¬ (v.Valid = false ∨ v.WarningCount > 0 ∨ v.ErrorCount > 0) →
      ranPlan (dryCase enc s test os).2 = true ∧
      failedAtValidation (dryCase enc s test os).2 = false) := by
  obtain ⟨p, r, hr, hcase⟩ :=
    dryCase_reaches_validation enc s test os v tfPath hopen hlook hnew hinit hval
  rw [hcase]
  by_cases hc : v.Valid = false ∨ v.WarningCount > 0 ∨ v.ErrorCount > 0
  · have hb : (!v.Valid || decide (v.WarningCount > 0) || decide (v.ErrorCount > 0)) = true := by
      rcases hc with h | h | h <;> simp [h]
    obtain ⟨evs, st, hst, hout, ht⟩ := dryValidation_trace_fail s test p r v hb
    have hnp := no_plan_of_isOutput evs hout
    refine ⟨⟨fun _ => hc, fun _ => ?_⟩, fun hn => absurd hc hn⟩
    rcases hst with rfl | rfl <;>
      simp [failedAtValidation, ranPlan, ht, hr, List.any_append, hnp]
  · have hb : (!v.Valid || decide (v.WarningCount > 0) || decide (v.ErrorCount > 0)) = false := by
      simp only [not_or] at hc
      obtain ⟨h1, h2, h3⟩ := hc
      simp [h1, h2, h3]
    have hstage : dryValidation s test [Deferred.delete p] r v
        = dryPlan s test [Deferred.delete p] r := by
      unfold dryValidation
      rw [hb]
      rfl
    obtain ⟨rest, ht, hm, hn⟩ := dryPlan_trace s test p r
    rw [hstage]
    have hplan : ranPlan (finish (fun _ => true) (dryPlan s test [Deferred.delete p] r)).2
        = true := by
      simp [ranPlan, ht, List.any_append]
    have hnot : failedAtValidation (finish (fun _ => true) (dryPlan s test [Deferred.delete p] r)).2
        = false := by
      simp [failedAtValidation, ht, hr, hm, hn]
    refine ⟨⟨fun h => ?_, fun h => absurd h hc⟩, fun _ => ⟨hplan, hnot⟩⟩
    rw [hplan] at h
    simp at h

/-! ## Scenario Integration -/

theorem destroys_append (xs ys : List Event) : destroys (xs ++ ys) = destroys xs ++ destroys ys := by
  induction xs with
  | nil => simp [destroys]
  | cons e xs ih => cases e <;> simp [destroys, ih]

/-- The deferred calls add their `destroy` invocations to the record in the
order in which they run, whatever their results. -/
theorem destroys_runDeferred (d : String → Bool) (ds : List Deferred) (r : Run) :
    destroys (runDeferred d ds r).trace = destroys r.trace ++ deferredDestroys ds := by
  induction ds generalizing r with
  | nil => simp [runDeferred, deferredDestroys]
  | cons x ds ih =>
    cases x with
    | delete p =>
      cases h : p.Delete r.os <;> simp [runDeferred, h, ih, deferredDestroys]
    | destroy o =>
      cases h : d o.TerraformDir <;>
        simp [runDeferred, h, ih, deferredDestroys, Run.emit, destroys_append, destroys]

/-- Installing a provider file changes nothing of what the system refuses. -/
theorem install_refusals (enc : AzureRm → Content) (path : String) (os : OS) :
    ((NewProvider path os).1.1.Create enc (NewProvider path os).2).2.refuseOpen
        = os.refuseOpen ∧
      ((NewProvider path os).1.1.Create enc (NewProvider path os).2).2.refuseRemove
        = os.refuseRemove := by
  obtain ⟨h1, h2⟩ := Create_refusals enc (NewProvider path os).1.1 (NewProvider path os).2
  obtain ⟨h3, h4⟩ := NewProvider_refusals path os
  exact ⟨h1.trans h3, h2.trans h4⟩

/-- Installing a provider file keeps every path openable. -/
theorem openable_install (enc : AzureRm → Content) (path : String) (os : OS) (q : String)
    (h : openable os q = true) :
    openable ((NewProvider path os).1.1.Create enc (NewProvider path os).2).2 q = true := by
  unfold openable at h ⊢
  rw [(install_refusals enc path os).1]
  exact h

theorem wire_dir (doc : VarMap) (B B1 : Options) (h : wire doc B = some B1) :
    B1.TerraformDir = B.TerraformDir := by
  unfold wire at h
  cases hv : subnetIdValue doc with
  | none => simp [hv] at h
  | some v =>
    simp [hv] at h
    rw [← h]

/-- The body of an Integration case with both provider files installed: it
never ends the process, records no `destroy` itself, and has deferred the
destroy of A, and before it the destroy of B when the deployment of B was
reached. -/
theorem itBody_deferred (enc : AzureRm → Content) (s : ITScript) (A B : Options) (os : OS)
    (hA : openable os (A.TerraformDir ++ "/provider.tf") = true)
    (hB : openable os (B.TerraformDir ++ "/provider.tf") = true) :
    ∃ (e : Ending) (ds : List Deferred) (r : Run),
      itBody enc s A B (Run.start os) = (e, ds, r) ∧ (∀ c, e ≠ Ending.exited c) ∧
      destroys r.trace = [] ∧
      deferredDestroys ds
        = (if s.reachesB = true then [B.TerraformDir, A.TerraformDir] else [A.TerraformDir]) ∧
      (∃ fd, Deferred.delete ⟨some ⟨fd, A.TerraformDir ++ "/provider.tf", true⟩,
        ⟨"azurerm", ⟨⟩⟩⟩ ∈ ds) ∧
      (∃ fd, Deferred.delete ⟨some ⟨fd, B.TerraformDir ++ "/provider.tf", true⟩,
        ⟨"azurerm", ⟨⟩⟩⟩ ∈ ds) ∧
      r.os.refuseRemove = os.refuseRemove := by
  obtain ⟨fdA, osA, hnpA⟩ := NewProvider_ok_of_openable _ os hA
  have hB1 := openable_install enc (A.TerraformDir ++ "/provider.tf") os _ hB
  have hrA := (install_refusals enc (A.TerraformDir ++ "/provider.tf") os).2
  rw [hnpA] at hB1 hrA
  obtain ⟨fdB, osB, hnpB⟩ := NewProvider_ok_of_openable _ _ hB1
  have hrB := (install_refusals enc (B.TerraformDir ++ "/provider.tf")
    (Provider.Create enc ⟨some ⟨fdA, A.TerraformDir ++ "/provider.tf", true⟩,
      ⟨"azurerm", ⟨⟩⟩⟩ osA).2).2
  rw [hnpB] at hrB
  have hfin := hrB.trans hrA
  simp only at hnpB hfin
  simp only [itBody, Run.start, hnpA, hnpB]
  have fin : ∀ (b : Body) (l : List String), (∀ c, b.1 ≠ Ending.exited c) →
      destroys b.2.2.trace = [] → deferredDestroys b.2.1 = l →
      Deferred.delete ⟨some ⟨fdA, A.TerraformDir ++ "/provider.tf", true⟩,
        ⟨"azurerm", ⟨⟩⟩⟩ ∈ b.2.1 →
      Deferred.delete ⟨some ⟨fdB, B.TerraformDir ++ "/provider.tf", true⟩,
        ⟨"azurerm", ⟨⟩⟩⟩ ∈ b.2.1 →
      b.2.2.os.refuseRemove = os.refuseRemove →
      ∃ (e : Ending) (ds : List Deferred) (r : Run), b = (e, ds, r) ∧
        (∀ c, e ≠ Ending.exited c) ∧ destroys r.trace = [] ∧ deferredDestroys ds = l ∧
        (∃ fd, Deferred.delete ⟨some ⟨fd, A.TerraformDir ++ "/provider.tf", true⟩,
          ⟨"azurerm", ⟨⟩⟩⟩ ∈ ds) ∧
        (∃ fd, Deferred.delete ⟨some ⟨fd, B.TerraformDir ++ "/provider.tf", true⟩,
          ⟨"azurerm", ⟨⟩⟩⟩ ∈ ds) ∧
        r.os.refuseRemove = os.refuseRemove :=
    fun b l h1 h2 h3 h4 h5 h6 =>
      ⟨b.1, b.2.1, b.2.2, rfl, h1, h2, h3, ⟨fdA, h4⟩, ⟨fdB, h5⟩, h6⟩
  rcases s with ⟨initA, applyA, outputA, unmarshal, initB, applyB, unchangedB, destroy⟩
  cases initA
  · refine fin _ _ ?_ ?_ ?_ ?_ ?_ ?_ <;>
      simp [InitAndApply, ApplyAndIdempotent, Init, Apply, toolStep, fatalAt, Run.emit,
        destroys_append, destroys, deferredDestroys, ITScript.reachesB, wire, hfin]
  cases applyA
  · refine fin _ _ ?_ ?_ ?_ ?_ ?_ ?_ <;>
      simp [InitAndApply, ApplyAndIdempotent, Init, Apply, toolStep, fatalAt, Run.emit,
        destroys_append, destroys, deferredDestroys, ITScript.reachesB, wire, hfin]
  cases outputA with
  | none =>
    refine fin _ _ ?_ ?_ ?_ ?_ ?_ ?_ <;>
      simp [InitAndApply, ApplyAndIdempotent, Init, Apply, toolStep, fatalAt, Run.emit,
        destroys_append, destroys, deferredDestroys, ITScript.reachesB, wire, hfin]
  | some out =>
    cases hu : unmarshal out with
    | none =>
      refine fin _ _ ?_ ?_ ?_ ?_ ?_ ?_ <;>
      simp [InitAndApply, ApplyAndIdempotent, Init, Apply, toolStep, fatalAt, Run.emit,
        destroys_append, destroys, deferredDestroys, ITScript.reachesB, wire, hfin, hu]
    | some doc =>
      cases hv : subnetIdValue doc with
      | none =>
        refine fin _ _ ?_ ?_ ?_ ?_ ?_ ?_ <;>
      simp [InitAndApply, ApplyAndIdempotent, Init, Apply, toolStep, fatalAt, Run.emit,
        destroys_append, destroys, deferredDestroys, ITScript.reachesB, wire, hfin, hu, hv]
      | some v =>
        cases initB <;> cases applyB <;> cases unchangedB <;>
          refine fin _ _ ?_ ?_ ?_ ?_ ?_ ?_ <;>
      simp [InitAndApply, ApplyAndIdempotent, Init, Apply, toolStep, fatalAt, Run.emit,
        destroys_append, destroys, deferredDestroys, ITScript.reachesB, wire, hfin, hu, hv]

/-- C7 (as stated, refuted): in the Integration case over the modules of the
repository with both provider files installed, a failure of `init` of A, of
`apply` of A, of the output read, of the JSON decode or of the wiring leaves
exactly one destroy invocation, the one of A; the destroy of B is never
registered, so the sequence is not `[B, A]`. -/
theorem it_early_failure_destroys_only_A :
    destroys (itCase hclText { ITScript.allOk outputsS1 with initA := false }
      mockModuleA mockModuleB OS.empty).2.trace = [mockModuleA.TerraformDir] ∧
    destroys (itCase hclText { ITScript.allOk outputsS1 with applyA := false }
      mockModuleA mockModuleB OS.empty).2.trace = [mockModuleA.TerraformDir] ∧
    destroys (itCase hclText { ITScript.allOk outputsS1 with outputA := none }
      mockModuleA mockModuleB OS.empty).2.trace = [mockModuleA.TerraformDir] ∧
    destroys (itCase hclText { ITScript.allOk outputsS1 with unmarshal := fun _ => none }
      mockModuleA mockModuleB OS.empty).2.trace = [mockModuleA.TerraformDir] ∧
    destroys (itCase hclText (ITScript.allOk VarMap.empty)
      mockModuleA mockModuleB OS.empty).2.trace = [mockModuleA.TerraformDir] ∧
    [mockModuleA.TerraformDir] ≠ [mockModuleB.TerraformDir, mockModuleA.TerraformDir] := by
  refine ⟨by decide, by decide, by decide, by decide, by decide, by decide⟩

/-- C7 (as amended): in every run of the Integration case over `[A, B]` with
both provider files installed, the destroy invocations made on exit are
`[B, A]` when every step before the deployment of B succeeded (the failing
step is `init`, `apply` or the idempotency check of B, a destroy, or none),
and `[A]` when the failing step is `init` or `apply` of A, the output read,
the JSON decode or the wiring: the modules whose deployment was begun are
destroyed in the reverse of the apply order. -/
theorem it_destroys_reverse_of_begun (enc : AzureRm → Content) (s : ITScript) (A B : Options)
    (os : OS)
    (hA : openable os (A.TerraformDir ++ "/provider.tf") = true)
    (hB : openable os (B.TerraformDir ++ "/provider.tf") = true) :
    destroys (itCase enc s A B os).2.trace
      = if s.reachesB = true then [B.TerraformDir, A.TerraformDir] else [A.TerraformDir] := by
  obtain ⟨e, ds, r, hb, hne, ht, hd, -, -, -⟩ := itBody_deferred enc s A B os hA hB
  have hfin : finish s.destroy (e, ds, r) = (e, runDeferred s.destroy ds r) := by
    cases e with
    | exited c => exact absurd rfl (hne c)
    | returned => rfl
    | goexit => rfl
    | panicked => rfl
  unfold itCase
  rw [hb, hfin, destroys_runDeferred, ht, hd]
  simp

theorem it_destroys_reverse_of_begun_witness :
    destroys (itCase hclText (ITScript.allOk outputsS1) mockModuleA mockModuleB OS.empty).2.trace
        = (if (ITScript.allOk outputsS1).reachesB = true
            then [mockModuleB.TerraformDir, mockModuleA.TerraformDir]
            else [mockModuleA.TerraformDir]) ∧
    (ITScript.allOk outputsS1).reachesB = true :=
  ⟨it_destroys_reverse_of_begun hclText (ITScript.allOk outputsS1) mockModuleA mockModuleB
    OS.empty (by decide) (by decide), by decide⟩

/-- C9: when the decoded outputs of A hold under `subnet_id` a mapping whose
`value` is the string `v`, the wiring step succeeds for every vars map of B
and gives a vars map in which `virtual_network_id` is `v` and every other key,
`subnet_id` included, has the value it had before; the rest of the options of
B is unchanged. -/
theorem wire_sets_virtual_network_id (doc m : VarMap) (v : String) (B : Options)
    (hdoc : doc "subnet_id" = some (Value.obj m)) (hval : m "value" = some (Value.str v)) :
    ∃ B1, wire doc B = some B1 ∧
      B1.Vars "virtual_network_id" = some (Value.str v) ∧
      (∀ k, k ≠ "virtual_network_id" → B1.Vars k = B.Vars k) ∧
      B1.Vars "subnet_id" = B.Vars "subnet_id" ∧
      B1.TerraformDir = B.TerraformDir ∧ B1.Reconfigure = B.Reconfigure ∧
      B1.Upgrade = B.Upgrade := by
  refine ⟨{ B with Vars := B.Vars.set "virtual_network_id" (Value.str v) }, ?_, ?_, ?_, ?_,
    rfl, rfl, rfl⟩
  · simp [wire, subnetIdValue, hdoc, hval]
  · simp [VarMap.set, upd]
  · intro k hk
    simp [VarMap.set, upd, hk]
  · simp [VarMap.set, upd]

theorem wire_sets_virtual_network_id_witness :
    ∃ B1, wire outputsS1 mockModuleB = some B1 ∧
      B1.Vars "virtual_network_id" = some (Value.str "s-1") ∧
      (∀ k, k ≠ "virtual_network_id" → B1.Vars k = mockModuleB.Vars k) ∧
      B1.Vars "subnet_id" = mockModuleB.Vars "subnet_id" ∧
      B1.TerraformDir = mockModuleB.TerraformDir ∧ B1.Reconfigure = mockModuleB.Reconfigure ∧
      B1.Upgrade = mockModuleB.Upgrade :=
  wire_sets_virtual_network_id outputsS1 (VarMap.empty.set "value" (Value.str "s-1")) "s-1"
    mockModuleB (by simp [outputsS1, VarMap.set, upd]) (by simp [VarMap.set, upd])

theorem dry_validation_gate_witness :
    (((failedAtValidation (dryCase hclText
          (DryScript.allOk ⟨true, 0, 1, [⟨"warning", "deprecated", ""⟩]⟩ ⟨Slice.nil⟩)
          dryRow OS.empty).2 = true ∧
        ranPlan (dryCase hclText
          (DryScript.allOk ⟨true, 0, 1, [⟨"warning", "deprecated", ""⟩]⟩ ⟨Slice.nil⟩)
          dryRow OS.empty).2 = false) ↔
      ((true : Bool) = false ∨ (1 : Int) > 0 ∨ (0 : Int) > 0)) ∧
    (¬ ((true : Bool) = false ∨ (1 : Int) > 0 ∨ (0 : Int) > 0) →
      ranPlan (dryCase hclText
          (DryScript.allOk ⟨true, 0, 1, [⟨"warning", "deprecated", ""⟩]⟩ ⟨Slice.nil⟩)
          dryRow OS.empty).2 = true ∧
      failedAtValidation (dryCase hclText
          (DryScript.allOk ⟨true, 0, 1, [⟨"warning", "deprecated", ""⟩]⟩ ⟨Slice.nil⟩)
          dryRow OS.empty).2 = false)) ∧
    (ranPlan (dryCase hclText (DryScript.allOk ⟨true, 0, 0, []⟩ ⟨Slice.nil⟩)
        dryRow OS.empty).2 = true ∧
      failedAtValidation (dryCase hclText (DryScript.allOk ⟨true, 0, 0, []⟩ ⟨Slice.nil⟩)
        dryRow OS.empty).2 = false) :=
  ⟨dry_validation_gate hclText
      (DryScript.allOk ⟨true, 0, 1, [⟨"warning", "deprecated", ""⟩]⟩ ⟨Slice.nil⟩) dryRow OS.empty
      ⟨true, 0, 1, [⟨"warning", "deprecated", ""⟩]⟩ "/usr/bin/terraform"
      (by decide) rfl rfl rfl rfl,
   (dry_validation_gate hclText (DryScript.allOk ⟨true, 0, 0, []⟩ ⟨Slice.nil⟩) dryRow OS.empty
      ⟨true, 0, 0, []⟩ "/usr/bin/terraform" (by decide) rfl rfl rfl rfl).2 (by decide)⟩

/-- When the tool is not found, a Dry case ends the process with status 1 and
the provider file it installed stays in the module directory. -/
theorem dry_exit_keeps_provider_file (enc : AzureRm → Content) (s : DryScript) (test : DryTest)
    (os : OS) (hopen : openable os (test.input.TerraformDir ++ "/provider.tf") = true)
    (hlook : s.lookPath = none) :
    (dryCase enc s test os).1 = Ending.exited 1 ∧
    (dryCase enc s test os).2.os.files (test.input.TerraformDir ++ "/provider.tf") ≠ none := by
  have hfile : ((NewProvider (test.input.TerraformDir ++ "/provider.tf") os).1.1.Create enc
      (NewProvider (test.input.TerraformDir ++ "/provider.tf") os).2).2.files
        (test.input.TerraformDir ++ "/provider.tf") ≠ none := by
    cases hf : os.files (test.input.TerraformDir ++ "/provider.tf") with
    | none => simp [install_missing enc _ os hf hopen]
    | some ino => simp [install_existing enc _ os ino hf hopen]
  obtain ⟨fd, os1, hnp⟩ := NewProvider_ok_of_openable _ os hopen
  rw [hnp] at hfile
  constructor
  · simp [dryCase, dryBody, Run.start, hnp, hlook, LocateTerraformExec, finish]
  · simpa [dryCase, dryBody, Run.start, hnp, hlook, LocateTerraformExec, finish] using hfile

/-- C8 (the code departs from the claim): the Dry case of the table starts in
a directory without `provider.tf`, installs the file, and the tool is not
found; `LocateTerraformExec` ends the process with status 1, the deferred
removal does not run, and the file is still in the module directory, holding
the provider declaration. -/
theorem dry_missing_tool_leaves_provider_file :
    OS.empty.files (dryRow.input.TerraformDir ++ "/provider.tf") = none ∧
    (dryCase hclText { DryScript.allOk ⟨true, 0, 0, []⟩ ⟨Slice.nil⟩ with lookPath := none }
      dryRow OS.empty).1 = Ending.exited 1 ∧
    (dryCase hclText { DryScript.allOk ⟨true, 0, 0, []⟩ ⟨Slice.nil⟩ with lookPath := none }
      dryRow OS.empty).2.os.files (dryRow.input.TerraformDir ++ "/provider.tf")
      = some ⟨0o644, hclText ⟨"azurerm", ⟨⟩⟩⟩ := by
  refine ⟨by decide, by decide, by decide⟩

/-! ## Removal of the provider file on the other exit paths -/

theorem Delete_keeps_none (p : Provider) (os os1 : OS) (n : String)
    (h : os.files n = none) (hd : p.Delete os = some os1) : os1.files n = none := by
  cases hp : p.path with
  | none => simp [Provider.Delete, File.Name, hp] at hd
  | some f =>
    rw [Delete_of_file p f os hp] at hd
    simp only [Option.some.injEq] at hd
    rw [← hd]
    by_cases hx : n = f.name
    · subst hx
      rw [Remove_unchanged _ os (Or.inl h)]
      exact h
    · rw [Remove_files_other f.name n os hx]
      exact h

theorem Delete_refuseRemove (p : Provider) (os os1 : OS) (hd : p.Delete os = some os1) :
    os1.refuseRemove = os.refuseRemove := by
  cases hp : p.path with
  | none => simp [Provider.Delete, File.Name, hp] at hd
  | some f =>
    rw [Delete_of_file p f os hp] at hd
    simp only [Option.some.injEq] at hd
    rw [← hd]
    exact (Remove_refusals f.name os).2

/-- The deferred calls change nothing of what the system refuses to remove. -/
theorem runDeferred_refuseRemove (d : String → Bool) (ds : List Deferred) (r : Run) :
    (runDeferred d ds r).os.refuseRemove = r.os.refuseRemove := by
  induction ds generalizing r with
  | nil => rfl
  | cons x ds ih =>
    cases x with
    | delete p =>
      cases hd : p.Delete r.os with
      | none =>
        simp only [runDeferred, hd]
        exact ih _
      | some os1 =>
        simp only [runDeferred, hd]
        exact (ih _).trans (Delete_refuseRemove p r.os os1 hd)
    | destroy o =>
      cases hb : d o.TerraformDir <;>
        · simp only [runDeferred, hb]
          exact ih _

/-- The deferred calls never bring a file back. -/
theorem runDeferred_keeps_none (d : String → Bool) (ds : List Deferred) (r : Run) (n : String)
    (h : r.os.files n = none) : (runDeferred d ds r).os.files n = none := by
  induction ds generalizing r with
  | nil => simpa [runDeferred] using h
  | cons x ds ih =>
    cases x with
    | delete p =>
      cases hd : p.Delete r.os with
      | none =>
        simp only [runDeferred, hd]
        exact ih _ h
      | some os1 =>
        simp only [runDeferred, hd]
        exact ih _ (Delete_keeps_none p r.os os1 n h hd)
    | destroy o =>
      cases hb : d o.TerraformDir <;>
        · simp only [runDeferred, hb]
          exact ih _ h

/-- A deferred `Delete` of a handle that holds a file leaves no file at the
path of the handle once the deferred calls have run, when the system does not
refuse the removal. -/
theorem runDeferred_deletes (d : String → Bool) (ds : List Deferred) (r : Run) (p : Provider)
    (f : File) (hp : p.path = some f) (hmem : Deferred.delete p ∈ ds)
    (hr : r.os.refuseRemove f.name = none) :
    (runDeferred d ds r).os.files f.name = none := by
  induction ds generalizing r with
  | nil => simp at hmem
  | cons x ds ih =>
    rcases List.mem_cons.1 hmem with hx | hx
    · subst hx
      simp only [runDeferred, Delete_of_file p f r.os hp]
      exact runDeferred_keeps_none d ds _ _ (Remove_files_same f.name r.os hr)
    · cases x with
      | delete q =>
        cases hd : q.Delete r.os with
        | none =>
          simp only [runDeferred, hd]
          exact ih _ hx hr
        | some os1 =>
          simp only [runDeferred, hd]
          refine ih _ hx ?_
          show os1.refuseRemove f.name = none
          rw [Delete_refuseRemove q r.os os1 hd]
          exact hr
      | destroy o =>
        cases hb : d o.TerraformDir <;>
          · simp only [runDeferred, hb]
            exact ih _ hx hr

theorem finish_of_not_exited (d : String → Bool) (b : Body)
    (h : ∀ c, b.1 ≠ Ending.exited c) : finish d b = (b.1, runDeferred d b.2.1 b.2.2) := by
  rcases b with ⟨e, ds, r⟩
  cases e with
  | exited c => exact absurd rfl (h c)
  | returned => rfl
  | goexit => rfl
  | panicked => rfl

theorem dryValidation_keeps (s : DryScript) (test : DryTest) (ds : List Deferred) (r : Run)
    (v : ValidateOutput) :
    (dryValidation s test ds r v).2.1 = ds ∧
      (∀ c, (dryValidation s test ds r v).1 ≠ Ending.exited c) ∧
      (dryValidation s test ds r v).2.2.os = r.os := by
  unfold dryValidation
  split
  · obtain ⟨evs, -, -, hos⟩ := logDiagnostics_trace s.marshal v.Diagnostics r
    rcases hl : logDiagnostics s.marshal v.Diagnostics r with ⟨b, r1⟩
    rw [hl] at hos
    simp only at hos
    cases b <;> simp [fatalAt, Run.emit, hos]
  · unfold dryPlan
    cases hp : s.plan with
    | false => simp [fatalAt, Run.emit]
    | true =>
      cases hs : s.showPlanFile with
      | none => simp [fatalAt, Run.emit]
      | some planJson =>
        cases hd : diffNonEmpty test.want (ParseResourceAddresses planJson) <;>
          simp [dryCompare, hd, fatalAt, Run.emit]

/-- On every path of a Dry case on which the tool is found, the provider file
is gone once the case has finished, when the system does not refuse its
removal. -/
theorem dry_removes_provider_file (enc : AzureRm → Content) (s : DryScript) (test : DryTest)
    (os : OS) (tfPath : String)
    (hopen : openable os (test.input.TerraformDir ++ "/provider.tf") = true)
    (hrem : os.refuseRemove (test.input.TerraformDir ++ "/provider.tf") = none)
    (hlook : s.lookPath = some tfPath) :
    (dryCase enc s test os).2.os.files (test.input.TerraformDir ++ "/provider.tf") = none := by
  obtain ⟨fd, os1, hnp⟩ := NewProvider_ok_of_openable _ os hopen
  have hfin := (install_refusals enc (test.input.TerraformDir ++ "/provider.tf") os).2
  rw [hnp] at hfin
  simp only at hfin
  have hbody : (dryBody enc s test (Run.start os)).2.1
        = [Deferred.delete ⟨some ⟨fd, test.input.TerraformDir ++ "/provider.tf", true⟩,
            ⟨"azurerm", ⟨⟩⟩⟩] ∧
      (∀ c, (dryBody enc s test (Run.start os)).1 ≠ Ending.exited c) ∧
      (dryBody enc s test (Run.start os)).2.2.os.refuseRemove = os.refuseRemove := by
    simp only [dryBody, Run.start, hnp, hlook, LocateTerraformExec]
    cases hn : s.newTerraform with
    | false => simp [fatalAt, Run.emit, hfin]
    | true =>
      cases hi : s.init with
      | false => simp [fatalAt, Run.emit, hfin]
      | true =>
        cases hv : s.validate with
        | none => simp [fatalAt, Run.emit, hfin]
        | some v =>
          obtain ⟨h1, h2, h3⟩ := dryValidation_keeps s test
            [Deferred.delete ⟨some ⟨fd, test.input.TerraformDir ++ "/provider.tf", true⟩,
              ⟨"azurerm", ⟨⟩⟩⟩]
            (((Run.mk (Provider.Create enc
              ⟨some ⟨fd, test.input.TerraformDir ++ "/provider.tf", true⟩, ⟨"azurerm", ⟨⟩⟩⟩
                os1).2 [] false).emit (Event.init test.input.TerraformDir)).emit
                  (Event.validate test.input.TerraformDir)) v
          refine ⟨by simpa using h1, by simpa using h2, ?_⟩
          simp only [Bool.not_true, Bool.false_eq_true, if_false]
          rw [h3]
          exact hfin
  unfold dryCase
  rw [finish_of_not_exited _ _ hbody.2.1, hbody.1]
  refine runDeferred_deletes _ _ _ _ ⟨fd, test.input.TerraformDir ++ "/provider.tf", true⟩ rfl
    (List.mem_singleton.2 rfl) ?_
  show (dryBody enc s test (Run.start os)).2.2.os.refuseRemove _ = none
  rw [hbody.2.2]
  exact hrem

/-- On every path of an Integration case with both provider files installed,
both files are gone once the case has finished, when the system does not
refuse their removal. -/
theorem it_removes_provider_files (enc : AzureRm → Content) (s : ITScript) (A B : Options)
    (os : OS)
    (hA : openable os (A.TerraformDir ++ "/provider.tf") = true)
    (hB : openable os (B.TerraformDir ++ "/provider.tf") = true)
    (hrA : os.refuseRemove (A.TerraformDir ++ "/provider.tf") = none)
    (hrB : os.refuseRemove (B.TerraformDir ++ "/provider.tf") = none) :
    (itCase enc s A B os).2.os.files (A.TerraformDir ++ "/provider.tf") = none ∧
    (itCase enc s A B os).2.os.files (B.TerraformDir ++ "/provider.tf") = none := by
  obtain ⟨e, ds, r, hb, hne, -, -, ⟨fdA, hmA⟩, ⟨fdB, hmB⟩, hrr⟩ :=
    itBody_deferred enc s A B os hA hB
  unfold itCase
  rw [hb, finish_of_not_exited _ _ hne]
  exact ⟨runDeferred_deletes _ _ _ _ ⟨fdA, A.TerraformDir ++ "/provider.tf", true⟩ rfl hmA
      (by rw [hrr]; exact hrA),
    runDeferred_deletes _ _ _ _ ⟨fdB, B.TerraformDir ++ "/provider.tf", true⟩ rfl hmB
      (by rw [hrr]; exact hrB)⟩

theorem runDeferred_destroy_os (d : String → Bool) (o : Options) (r : Run) :
    (runDeferred d [Deferred.destroy o] r).os = r.os := by
  cases h : d o.TerraformDir <;> simp [runDeferred, h, Run.emit]

/-- The function literal of a Unit case does not touch the file system. -/
theorem unitSub_os (s : UnitScript) (test : UnitTest) (r : Run) :
    (unitSub s test r).2.os = r.os := by
  unfold unitSub
  cases hi : s.init <;> cases ha : s.apply <;> cases hu : s.unchanged <;>
    simp [Init, ApplyAndIdempotent, Apply, toolStep, fatalAt, finish, runDeferred_destroy_os,
      Run.emit]

/-- The loop of the Unit scenario over rows whose provider files can all be
opened: it returns, and the removal of the provider file of every row is among
the deferred calls. -/
theorem unitLoop_deferred (enc : AzureRm → Content) (rows : List (UnitTest × UnitScript))
    (ds : List Deferred) (r : Run)
    (hopen : ∀ row ∈ rows, openable r.os (row.1.input.TerraformDir ++ "/provider.tf") = true) :
    ∃ (ds1 : List Deferred) (r1 : Run), unitLoop enc rows ds r = (Ending.returned, ds1, r1) ∧
      (∀ x ∈ ds, x ∈ ds1) ∧
      (∀ row ∈ rows, ∃ fd, Deferred.delete
        ⟨some ⟨fd, row.1.input.TerraformDir ++ "/provider.tf", true⟩, ⟨"azurerm", ⟨⟩⟩⟩ ∈ ds1) ∧
      r1.os.refuseRemove = r.os.refuseRemove := by
  induction rows generalizing ds r with
  | nil => exact ⟨ds, r, rfl, fun _ h => h, by simp, rfl⟩
  | cons row rows ih =>
    obtain ⟨test, s⟩ := row
    have h0 := hopen (test, s) (List.mem_cons_self _ _)
    obtain ⟨fd, os1, hnp⟩ := NewProvider_ok_of_openable _ r.os h0
    have hfin := (install_refusals enc (test.input.TerraformDir ++ "/provider.tf") r.os).2
    rw [hnp] at hfin
    simp only at hfin
    have hrest : ∀ row ∈ rows, openable (unitSub s test
        { r with os := (Provider.Create enc
          ⟨some ⟨fd, test.input.TerraformDir ++ "/provider.tf", true⟩, ⟨"azurerm", ⟨⟩⟩⟩
            os1).2 }).2.os (row.1.input.TerraformDir ++ "/provider.tf") = true := by
      intro row hrow
      rw [unitSub_os]
      have h1 := openable_install enc (test.input.TerraformDir ++ "/provider.tf") r.os _
        (hopen row (List.mem_cons_of_mem _ hrow))
      rw [hnp] at h1
      exact h1
    obtain ⟨ds1, r1, hloop, hsub, hall, hrr⟩ := ih
      (Deferred.delete ⟨some ⟨fd, test.input.TerraformDir ++ "/provider.tf", true⟩,
        ⟨"azurerm", ⟨⟩⟩⟩ :: ds) _ hrest
    refine ⟨ds1, r1, ?_, fun x hx => hsub x (List.mem_cons_of_mem _ hx), ?_, ?_⟩
    · simp only [unitLoop, hnp]
      exact hloop
    · intro row hrow
      rcases List.mem_cons.1 hrow with h | h
      · subst h
        exact ⟨fd, hsub _ (List.mem_cons_self _ _)⟩
      · exact hall row h
    · rw [hrr, unitSub_os]
      exact hfin

/-- In the Unit scenario over rows whose provider files can all be opened,
the provider file of every row is gone once the test function has finished,
whatever the results of `init`, `apply`, the idempotency check and `destroy`,
when the system does not refuse its removal. -/
theorem unit_removes_provider_files (enc : AzureRm → Content)
    (rows : List (UnitTest × UnitScript)) (os : OS)
    (hopen : ∀ row ∈ rows, openable os (row.1.input.TerraformDir ++ "/provider.tf") = true)
    (hrem : ∀ row ∈ rows, os.refuseRemove (row.1.input.TerraformDir ++ "/provider.tf") = none) :
    ∀ row ∈ rows,
      (TestUT_Example enc rows os).2.os.files (row.1.input.TerraformDir ++ "/provider.tf")
        = none := by
  obtain ⟨ds1, r1, hloop, -, hall, hrr⟩ := unitLoop_deferred enc rows [] (Run.start os) hopen
  intro row hrow
  obtain ⟨fd, hmem⟩ := hall row hrow
  unfold TestUT_Example
  rw [hloop]
  refine runDeferred_deletes _ _ _ _ ⟨fd, row.1.input.TerraformDir ++ "/provider.tf", true⟩ rfl
    hmem ?_
  show r1.os.refuseRemove _ = none
  rw [hrr]
  exact hrem row hrow

end TfBoilerplate
